import Mathlib

/-!
Verification development for the PyOBSim limit-order matching engine.

The Book component is translated from `src/pyobsim/book.py`.  The leaf
components `Side`, `Order`, `Participant` and the error taxonomy are not part
of the available sources, so they are modelled from the specification
(sections 3, 4.1, 6 and 7 of the design document), as noted on each of their
declarations.

Prices and currency amounts are fixed-point currency units, modelled as
integers (`ℤ`); quantities are the positive integers of the data model,
modelled as `ℕ`.
-/

namespace PyOBSim

/-- Side/order direction tag.  The source uses the strings "BID" and "ASK";
the Book only ever constructs and compares these two values, so the tag is
modelled as a two-constructor inductive. -/
inductive OType where
  | BID : OType
  | ASK : OType
deriving DecidableEq

/-- Opposite direction: the side an incoming order is matched against. -/
def OType.opp : OType → OType
  | .BID => .ASK
  | .ASK => .BID

/-- Modelled from the spec (section 3): an Order carries an identifier
(assigned by the Book on resting, 0 before resting), an owner reference
(participant identity, the key of the Book's participant map), a side tag,
a price and a mutable remaining quantity.  The symbol/book tag plays no role
in `book.py` and is omitted. -/
structure Order where
  oid : Nat
  owner : String
  otype : OType
  price : ℤ
  qty : Nat
deriving DecidableEq

/-- Modelled from the spec (section 3): a participant-ledger entry holds a
balance (currency) and a position (inventory units, called `volume` in the
source's accesses `participant.volume`). -/
structure Participant where
  name : String
  balance : ℤ
  volume : ℤ
deriving DecidableEq

/-- Modelled from the spec (sections 3 and 4.1): a Side is a direction tag
together with an ordered mapping from price to the FIFO queue of orders
resting at that price.  The mapping is modelled as an association list with
distinct price keys and non-empty queues. -/
structure Side where
  stype : OType
  levels : List (ℤ × List Order)
deriving DecidableEq

namespace Side

/-- Modelled from the spec (section 4.1, `ordersAt`): the FIFO queue resting
at an exact price, `none` standing for the NoPrice failure used as a sentinel
during sweeps. -/
def get (s : Side) (p : ℤ) : Option (List Order) :=
  (s.levels.find? (fun l => decide (l.1 = p))).map (fun l => l.2)

/-- Modelled from the spec (section 4.1, `put`): insert the order at the
level for its price, creating the level if absent, appended to the end of
that level's queue so that time priority is preserved. -/
def put (s : Side) (o : Order) : Side :=
  if (s.get o.price).isSome then
    ⟨s.stype, s.levels.map (fun l => if l.1 = o.price then (l.1, l.2 ++ [o]) else l)⟩
  else
    ⟨s.stype, s.levels ++ [(o.price, [o])]⟩

/-- Modelled from the spec (section 4.1, `remove`): remove the order with the
given identifier wherever it rests, a no-op if absent.  A level whose queue
empties is deleted, so that `get` fails with the NoPrice sentinel there — the
sweep in `Book._match` relies on this to detect level exhaustion. -/
def remove (s : Side) (oid : Nat) : Side :=
  ⟨s.stype,
    (s.levels.map (fun l => (l.1, l.2.filter (fun o => decide (o.oid ≠ oid))))).filter
      (fun l => decide (l.2 ≠ []))⟩

/-- In-place mutation `order.qty -= amt` performed by `Book.execute` on an
order object: visible in the Side holding the order, modelled as updating the
quantity of the order with that identifier wherever it rests on this Side. -/
def subQty (s : Side) (oid : Nat) (a : Nat) : Side :=
  ⟨s.stype,
    s.levels.map (fun l =>
      (l.1, l.2.map (fun o => if o.oid = oid then ⟨o.oid, o.owner, o.otype, o.price, o.qty - a⟩ else o)))⟩

/-- Modelled from the spec (section 4.1, `priceLevels`): the distinct resting
prices in best-first order — highest first for a BID side, lowest first for
an ASK side. -/
def prices (s : Side) : List ℤ :=
  match s.stype with
  | .BID => List.insertionSort (fun a b : ℤ => b ≤ a) (s.levels.map (fun l => l.1))
  | .ASK => List.insertionSort (fun a b : ℤ => a ≤ b) (s.levels.map (fun l => l.1))

/-- Modelled from the spec (section 3): the best available price, with the
sentinel 0 when the side is empty.  Section 3 describes `best` as "best
available price, or a sentinel/failure if empty"; the concrete scenarios of
section 8 (an order admitted against an empty opposing side rests via
InsufficientVolume rather than propagating a failure) force the sentinel
reading, and 0 is the sentinel compatible with both comparisons in
`Book._match`. -/
def best (s : Side) : ℤ :=
  match s.prices with
  | [] => 0
  | p :: _ => p

/-- Modelled from the spec (section 4.1): total resting quantity across all
levels. -/
def volume (s : Side) : Nat :=
  ((s.levels.map (fun l => (l.2.map Order.qty).sum)).sum)

/-- Modelled from the spec (section 4.1): number of distinct price levels. -/
def depth (s : Side) : Nat := s.levels.length

/-- Identifiers of all orders resting on the side, in storage order. -/
def oids (s : Side) : List Nat :=
  ((s.levels.map (fun l => l.2)).flatten).map Order.oid

end Side

/-- Error taxonomy.  The error classes live in `pyobsim/errors.py`, which is
not among the available sources; the kinds are modelled from the spec
(section 7).  `nameError` and `keyError` stand for the Python `NameError`
(raising an identifier that was never imported) and `KeyError` (missing
dictionary key) that `book.py` can actually produce. -/
inductive Err where
  | insufficientFunds : Err
  | insufficientVolume : Err
  | priceOutOfRange : Err
  | noPrice : Err
  | participantAlreadyExists : Err
  | noSuchParameter : Err
  | nameError : Err
  | keyError : Err
deriving DecidableEq

/-- Lookup in a name-keyed association list (the participant dictionary built
by `Book.__init__`). -/
def plookup (m : List (String × Participant)) (k : String) : Option Participant :=
  (m.find? (fun e => decide (e.1 = k))).map (fun e => e.2)

/-- Lookup in the named-parameter dictionary. -/
def klookup (m : List (String × Int)) (k : String) : Option Int :=
  (m.find? (fun e => decide (e.1 = k))).map (fun e => e.2)

/-- Update of the named-parameter dictionary at an existing key
(`self.__params[name] = value`). -/
def kupdate (m : List (String × Int)) (k : String) (v : Int) : List (String × Int) :=
  m.map (fun e => if e.1 = k then (e.1, v) else e)

/-- Pointwise update of a participant map entry. -/
def pupdate (m : List (String × Participant)) (k : String)
    (f : Participant → Participant) : List (String × Participant) :=
  m.map (fun e => if e.1 = k then (e.1, f e.2) else e)

/-- The Book of `book.py`: name, participant map, named-parameter map, the
two sides and the last traded price (0 before any trade). -/
structure Book where
  name : String
  participants : List (String × Participant)
  params : List (String × Int)
  bids : Side
  asks : Side
  LTP : ℤ
deriving DecidableEq

namespace Book

/-- Book.participants property: returns a deep copy of the stored participant
dictionary.  In this pure model the copy is value-equal to the stored map;
what matters is that mutations applied to the copy never reach the Book. -/
def participantsView (b : Book) : List (String × Participant) := b.participants

/-- Book.volume property: per-side aggregate resting quantity. -/
def volume (b : Book) : Nat × Nat := (b.bids.volume, b.asks.volume)

/-- Side selector, standing for the `self.bids` / `self.asks` attribute
accesses of the source. -/
def sideOf (b : Book) (t : OType) : Side :=
  match t with
  | .BID => b.bids
  | .ASK => b.asks

/-- Ledger arithmetic of Book._payout applied to a participant map: BID
debits `price × amt` and credits the position by `amt`, ASK credits
`price × amt` and debits the position, where `amt` is the explicit amount
when one is given (Python truthiness: `if amt:`, so an explicit 0 falls back
to the full quantity) and the order's full quantity otherwise. -/
def payoutMap (m : List (String × Participant)) (stype : OType) (o : Order)
    (amt : Option Nat) : List (String × Participant) :=
  let a : Nat :=
    match amt with
    | some v => if v = 0 then o.qty else v
    | none => o.qty
  match stype with
  | .BID => pupdate m o.owner (fun p => ⟨p.name, p.balance - o.price * a, p.volume + a⟩)
  | .ASK => pupdate m o.owner (fun p => ⟨p.name, p.balance + o.price * a, p.volume - a⟩)

/-- Book._payout: the balance/position assignments are applied through the
`participants` property, i.e. to a deep copy of the stored map; the copy is
then discarded, so the Book's own participant map is left unchanged. -/
def payout (b : Book) (stype : OType) (o : Order) (amt : Option Nat) : Book :=
  let _discarded := payoutMap b.participantsView stype o amt
  b

/-- Full mode of Book.execute: settle the order's entire remaining quantity
(via the discarded-copy payout), remove the order from its own side by
identifier, and set LTP to the order's price. -/
def executeFull (b : Book) (o : Order) : Book × Order :=
  match o.otype with
  | .BID =>
      let b1 := b.payout .BID o none
      (⟨b1.name, b1.participants, b1.params, b1.bids.remove o.oid, b1.asks, o.price⟩, o)
  | .ASK =>
      let b1 := b.payout .ASK o none
      (⟨b1.name, b1.participants, b1.params, b1.bids, b1.asks.remove o.oid, o.price⟩, o)

/-- Partial mode of Book.execute: settle only `a` of the quantity (via the
discarded-copy payout), subtract `a` from the order's quantity in place —
visible on the order's own side when the order rests there — and set LTP to
the order's price.  The returned order is the mutated order object. -/
def executePart (b : Book) (o : Order) (a : Nat) : Book × Order :=
  let o' : Order := ⟨o.oid, o.owner, o.otype, o.price, o.qty - a⟩
  match o.otype with
  | .BID =>
      let b1 := b.payout .BID o (some a)
      (⟨b1.name, b1.participants, b1.params, b1.bids.subQty o.oid a, b1.asks, o.price⟩, o')
  | .ASK =>
      let b1 := b.payout .ASK o (some a)
      (⟨b1.name, b1.participants, b1.params, b1.bids, b1.asks.subQty o.oid a, o.price⟩, o')

/-- Book.execute: partial mode when an amount is given and truthy (Python
`if amt:`, so `amt=0` selects the full mode), full mode otherwise. -/
def execute (b : Book) (o : Order) (amt : Option Nat) : Book × Order :=
  match amt with
  | some a => if a = 0 then b.executeFull o else b.executePart o a
  | none => b.executeFull o

/-- Inner loop of the sweep in Book._match: the `for o in level:` loop over
the snapshot of one price level's queue, oldest first.  Strictly smaller
incoming remaining quantity executes the incoming order in full and the
resting order partially (matched); equal quantities execute both in full
(matched); strictly larger executes the resting order in full, reduces the
incoming remaining quantity and continues with the next resting order. -/
def sweepOrders (b : Book) (o : Order) : List Order → Book × Order × Bool
  | [] => (b, o, false)
  | r :: rest =>
    if o.qty < r.qty then
      let br := b.execute o none
      let br2 := br.1.execute r (some o.qty)
      (br2.1, o, true)
    else if o.qty = r.qty then
      let br := b.execute o none
      let br2 := br.1.execute r none
      (br2.1, o, true)
    else
      let br := b.execute o (some r.qty)
      let br2 := br.1.execute r none
      sweepOrders br2.1 br.2 rest

/-- Outer loop of the sweep in Book._match over the snapshot of the opposing
side's best-first price list.  When the level at a price has been consumed,
re-fetching it fails with the NoPrice sentinel and the sweep moves to the
next price; a matched flag ends the sweep. -/
def sweepPrices (b : Book) (cs : OType) (o : Order) : List ℤ → Book
  | [] => b
  | p :: rest =>
    match (b.sideOf cs).get p with
    | none => b.sweepPrices cs o rest
    | some level =>
      let res := b.sweepOrders o level
      if res.2.2 then res.1 else res.1.sweepPrices cs res.2.1 rest

/-- Book._match (named `matchOrder` because `match` is a Lean keyword): the
compatibility check against the opposing side's best price, the sufficiency
check against the opposing side's total resting volume, then the sweep.
Failures of the two checks are the internal control signals caught by
`Book.add`. -/
def matchOrder (b : Book) (cs : OType) (o : Order) : Except Err Book :=
  let s := b.sideOf cs
  let goodPrice : Bool :=
    match cs with
    | .BID => decide (o.price ≤ s.best)
    | .ASK => decide (s.best ≤ o.price)
  if goodPrice then
    if o.qty ≤ s.volume then
      .ok (b.sweepPrices cs o s.prices)
    else
      .error .insufficientVolume
  else
    .error .priceOutOfRange

/-- Resting path of Book.add, duplicated in the source across the four
`except` arms: assign the fresh identifier (current bid volume + current ask
volume + 1), store it on the order, rest the order on its own side and
return the identifier. -/
def restOrder (b : Book) (o : Order) : Book × Except Err (Option Nat) :=
  let oid := b.volume.1 + b.volume.2 + 1
  let o' : Order := ⟨oid, o.owner, o.otype, o.price, o.qty⟩
  match o.otype with
  | .BID => (⟨b.name, b.participants, b.params, b.bids.put o', b.asks, b.LTP⟩, .ok (some oid))
  | .ASK => (⟨b.name, b.participants, b.params, b.bids, b.asks.put o', b.LTP⟩, .ok (some oid))

/-- Book.add: the funds/position gate, the match attempt, and the resting
path on either internal control signal.  A successful match falls out of the
`try` with no `return`, so the call yields `none` (Python `None`); a missing
owner key in the participant dictionary surfaces as a `KeyError`.  On every
failure the book is returned unchanged, as the source raises before any
mutation. -/
def add (b : Book) (o : Order) : Book × Except Err (Option Nat) :=
  match plookup b.participantsView o.owner with
  | none => (b, .error .keyError)
  | some part =>
    match o.otype with
    | .BID =>
      if o.price * (o.qty : ℤ) ≤ part.balance then
        match b.matchOrder .ASK o with
        | .ok b1 => (b1, .ok none)
        | .error .insufficientVolume => b.restOrder o
        | .error .priceOutOfRange => b.restOrder o
        | .error e => (b, .error e)
      else
        (b, .error .insufficientFunds)
    | .ASK =>
      if (o.qty : ℤ) ≤ part.volume then
        match b.matchOrder .BID o with
        | .ok b1 => (b1, .ok none)
        | .error .insufficientVolume => b.restOrder o
        | .error .priceOutOfRange => b.restOrder o
        | .error e => (b, .error e)
      else
        (b, .error .insufficientFunds)

/-- Book.cancel: remove the identifier from both sides unconditionally. -/
def cancel (b : Book) (oid : Nat) : Book :=
  ⟨b.name, b.participants, b.params, b.bids.remove oid, b.asks.remove oid, b.LTP⟩

/-- Book.set_param.  The source's failure arm executes
`raise NoSuchParameterError()`, but `NoSuchParameterError` is never imported
in `book.py`, so the failure actually surfaces as a Python `NameError`. -/
def set_param (b : Book) (nm : String) (v : Int) : Book × Except Err Unit :=
  if (klookup b.params nm).isSome then
    (⟨b.name, b.participants, kupdate b.params nm v, b.bids, b.asks, b.LTP⟩, .ok ())
  else
    (b, .error .nameError)

/-- Book.get_param, with the same missing-import behaviour as
`Book.set_param`: the unknown-name arm surfaces a `NameError`. -/
def get_param (b : Book) (nm : String) : Except Err Int :=
  match klookup b.params nm with
  | none => .error .nameError
  | some v => .ok v

/-- Book.add_participant: a duplicate name raises ParticipantAlreadyExists;
otherwise the insertion `self.participants[participant.name] = participant`
is applied to the deep copy returned by the `participants` property, and the
copy is discarded, so the stored map is unchanged. -/
def add_participant (b : Book) (p : Participant) : Book × Except Err Unit :=
  if (plookup b.participants p.name).isSome then
    (b, .error .participantAlreadyExists)
  else
    let _copy := b.participantsView ++ [(p.name, p)]
    (b, .ok ())

end Book

end PyOBSim

namespace PyOBSim

instance instDecEqExcept {ε α : Type} [DecidableEq ε] [DecidableEq α] :
    DecidableEq (Except ε α) := fun x y =>
  match x, y with
  | .ok a, .ok b =>
      if h : a = b then isTrue (by rw [h]) else isFalse (fun hc => by cases hc; exact h rfl)
  | .error a, .error b =>
      if h : a = b then isTrue (by rw [h]) else isFalse (fun hc => by cases hc; exact h rfl)
  | .ok _, .error _ => isFalse (fun hc => by cases hc)
  | .error _, .ok _ => isFalse (fun hc => by cases hc)

/-- Admission gate of Book.add, as a predicate: a BID requires
`price × quantity ≤ balance`, an ASK requires `quantity ≤ position`, for the
submitting participant looked up by owner name. -/
def Book.fundsOk (b : Book) (o : Order) : Bool :=
  match o.otype, plookup b.participants o.owner with
  | .BID, some part => decide (o.price * (o.qty : ℤ) ≤ part.balance)
  | .ASK, some part => decide ((o.qty : ℤ) ≤ part.volume)
  | _, none => false

/-- Compatibility check of Book._match, as a predicate: a BID is compatible
when its price is at or above the ask side's best, an ASK when its price is
at or below the bid side's best. -/
def Book.priceCompatible (b : Book) (o : Order) : Bool :=
  match o.otype with
  | .BID => decide (b.asks.best ≤ o.price)
  | .ASK => decide (o.price ≤ b.bids.best)

/-- An order is resting somewhere on the side. -/
def Side.containsOrder (s : Side) (o : Order) : Prop :=
  ∃ l ∈ s.levels, o ∈ l.2

/-- Well-formedness maintained by put/remove: no stored level is empty. -/
def Side.wellFormed (s : Side) : Prop := ∀ l ∈ s.levels, l.2 ≠ []

/-- Both sides of the book are well-formed. -/
def Book.wellFormed (b : Book) : Prop := b.bids.wellFormed ∧ b.asks.wellFormed

instance Side.instDecidableWellFormed (s : Side) : Decidable s.wellFormed :=
  inferInstanceAs (Decidable (∀ l ∈ s.levels, l.2 ≠ []))

instance Book.instDecidableWellFormed (b : Book) : Decidable b.wellFormed :=
  inferInstanceAs (Decidable (b.bids.wellFormed ∧ b.asks.wellFormed))

/-- Demo participants and book used by the concrete witnesses: seller S with
position 20, buyer B with balance 100, and one named parameter. -/
def demoS : Participant := ⟨"S", 100, 20⟩

/-- Demo buyer. -/
def demoB : Participant := ⟨"B", 100, 0⟩

/-- Demo book with an empty bid side and an empty ask side. -/
def demoBook : Book :=
  ⟨"demo", [("S", demoS), ("B", demoB)], [("tick", 1)], ⟨.BID, []⟩, ⟨.ASK, []⟩, 0⟩

/-- The ASK of the full-match scenario: 10 units at price 5 from S. -/
def c1Ask : Order := ⟨0, "S", .ASK, 5, 10⟩

/-- The BID of the full-match scenario: 10 units at price 5 from B. -/
def c1Bid : Order := ⟨0, "B", .BID, 5, 10⟩

/-- The demo book after the ASK of the full-match scenario has rested. -/
def c1AfterAsk : Book := (demoBook.add c1Ask).1

/-- The book state the full-match scenario ends in: both sides empty,
LTP = 5, and the participant map exactly as it started. -/
def c1MatchedBook : Book :=
  ⟨"demo", [("S", demoS), ("B", demoB)], [("tick", 1)], ⟨.BID, []⟩, ⟨.ASK, []⟩, 5⟩

/-- The demo book with an ASK for 10 units resting at price 6. -/
def askAt6Book : Book := (demoBook.add ⟨0, "S", .ASK, 6, 10⟩).1

/-- Modelled from the spec (section 4.3, step 3), the sweep inside one price
level as the spec words it: repeatedly take the oldest resting order and
compare quantities against the incoming order's remaining quantity `q`;
smaller incoming remaining leaves the resting head reduced by `q` (matched),
equal removes the head (matched), larger removes the head, reduces `q` by the
head's quantity and continues with the next-oldest order.  Returns the
level's remaining queue, the incoming order's remaining quantity, and whether
matching completed. -/
def specFill (q : Nat) : List Order → List Order × Nat × Bool
  | [] => ([], q, false)
  | r :: rest =>
    if q < r.qty then ((⟨r.oid, r.owner, r.otype, r.price, r.qty - q⟩ : Order) :: rest, q, true)
    else if q = r.qty then (rest, q, true)
    else specFill (q - r.qty) rest

/-- Distinct price keys on a side — the dictionary invariant of the levels
mapping. -/
def Side.keysNodup (s : Side) : Prop := (s.levels.map (fun l => l.1)).Nodup

instance Side.instDecidableKeysNodup (s : Side) : Decidable s.keysNodup :=
  inferInstanceAs (Decidable (s.levels.map (fun l : ℤ × List Order => l.1)).Nodup)

/-- Identifiers resting in a list of levels (the list-level form of
`Side.oids`). -/
def oidsOf (ls : List (ℤ × List Order)) : List Nat :=
  ((ls.map (fun l => l.2)).flatten).map Order.oid

/-- Best-first order on prices: highest first on a BID side, lowest first on
an ASK side. -/
def bestFirst (t : OType) : ℤ → ℤ → Prop :=
  match t with
  | .BID => fun a b => b ≤ a
  | .ASK => fun a b => a ≤ b

/-- Book with three ASKs resting at price 5 in arrival order (quantities 10,
4 and 6), used to exercise the FIFO sweep. -/
def fifoBook : Book :=
  ⟨"demo", [("S", demoS), ("B", demoB)], [("tick", 1)], ⟨.BID, []⟩,
    ⟨.ASK, [(5, [⟨1, "S", .ASK, 5, 10⟩, ⟨11, "S", .ASK, 5, 4⟩, ⟨15, "S", .ASK, 5, 6⟩])]⟩, 0⟩

/-- Incoming BID for 12 units at price 5 aimed at the FIFO demo level. -/
def fifoBid : Order := ⟨0, "B", .BID, 5, 12⟩

/-- The resting queue of the FIFO demo level, oldest first. -/
def fifoLevel : List Order :=
  [⟨1, "S", .ASK, 5, 10⟩, ⟨11, "S", .ASK, 5, 4⟩, ⟨15, "S", .ASK, 5, 6⟩]

end PyOBSim

namespace PyOBSim

theorem Side.mem_oids {s : Side} {a : Nat} :
    a ∈ s.oids ↔ ∃ l ∈ s.levels, ∃ o ∈ l.2, o.oid = a := by
  unfold Side.oids
  simp only [List.mem_map, List.mem_flatten]
  constructor
  · rintro ⟨o, ⟨q, ⟨⟨l, hl, hql⟩, hoq⟩⟩, hoid⟩
    exact ⟨l, hl, o, by rw [hql]; exact hoq, hoid⟩
  · rintro ⟨l, hl, o, ho, hoid⟩
    exact ⟨o, ⟨l.2, ⟨l, hl, rfl⟩, ho⟩, hoid⟩

theorem Side.oids_remove_subset (s : Side) (i : Nat) : (s.remove i).oids ⊆ s.oids := by
  intro a ha
  rw [Side.mem_oids] at ha ⊢
  obtain ⟨l', hl', o, ho, hoid⟩ := ha
  unfold Side.remove at hl'
  simp only [List.mem_filter, List.mem_map] at hl'
  obtain ⟨⟨l, hl, hfl⟩, _⟩ := hl'
  refine ⟨l, hl, o, ?_, hoid⟩
  have hmf : o ∈ (l.2.filter (fun o => decide (o.oid ≠ i))) := by rw [← hfl] at ho; exact ho
  exact List.mem_of_mem_filter hmf

theorem Side.oids_subQty (s : Side) (i : Nat) (a : Nat) : (s.subQty i a).oids = s.oids := by
  unfold Side.oids Side.subQty
  simp only [List.map_map]
  induction s.levels with
  | nil => rfl
  | cons l ls ih =>
    simp only [List.map_cons, List.flatten_cons, List.map_append, ih]
    congr 1
    simp only [Function.comp]
    rw [List.map_map]
    apply List.map_congr_left
    intro o _
    by_cases h : o.oid = i <;> simp [h]

theorem Side.not_mem_oids_remove (s : Side) (i : Nat) : i ∉ (s.remove i).oids := by
  intro ha
  rw [Side.mem_oids] at ha
  obtain ⟨l', hl', o, ho, hoid⟩ := ha
  unfold Side.remove at hl'
  simp only [List.mem_filter, List.mem_map] at hl'
  obtain ⟨⟨l, _, hfl⟩, _⟩ := hl'
  have hmf : o ∈ (l.2.filter (fun o => decide (o.oid ≠ i))) := by rw [← hfl] at ho; exact ho
  have hne := List.of_mem_filter hmf
  simp at hne
  exact hne hoid

theorem Side.remove_of_not_mem (s : Side) (i : Nat)
    (hwf : ∀ l ∈ s.levels, l.2 ≠ []) (h : i ∉ s.oids) : s.remove i = s := by
  have hmap : s.levels.map (fun l => (l.1, l.2.filter (fun o => decide (o.oid ≠ i))))
      = s.levels := by
    have hcg : ∀ l ∈ s.levels,
        (fun l : ℤ × List Order => (l.1, l.2.filter (fun o => decide (o.oid ≠ i)))) l = id l := by
      intro l hl
      have hfe : l.2.filter (fun o => decide (o.oid ≠ i)) = l.2 := by
        apply List.filter_eq_self.mpr
        intro o ho
        simp only [decide_eq_true_eq]
        intro he
        exact h (Side.mem_oids.mpr ⟨l, hl, o, ho, he⟩)
      show (l.1, l.2.filter (fun o => decide (o.oid ≠ i))) = l
      rw [hfe]
    rw [List.map_congr_left hcg, List.map_id]
  unfold Side.remove
  rw [hmap]
  have hfl : s.levels.filter (fun l => decide (l.2 ≠ [])) = s.levels := by
    apply List.filter_eq_self.mpr
    intro l hl
    simpa using hwf l hl
  rw [hfl]

theorem Side.wf_remove (s : Side) (i : Nat) : ∀ l ∈ (s.remove i).levels, l.2 ≠ [] := by
  intro l hl
  unfold Side.remove at hl
  simp only [List.mem_filter] at hl
  simpa using hl.2

theorem Side.remove_idem (s : Side) (i : Nat) : (s.remove i).remove i = s.remove i :=
  Side.remove_of_not_mem _ _ (Side.wf_remove s i) (Side.not_mem_oids_remove s i)

theorem Side.containsOrder_put (s : Side) (o : Order) : (s.put o).containsOrder o := by
  unfold Side.put Side.containsOrder
  by_cases h : (s.get o.price).isSome
  · rw [if_pos h]
    obtain ⟨lp, hfind⟩ : ∃ lp, s.levels.find? (fun l => decide (l.1 = o.price)) = some lp := by
      cases hf : s.levels.find? (fun l => decide (l.1 = o.price)) with
      | none => simp [Side.get, hf] at h
      | some lp => exact ⟨lp, rfl⟩
    have hmem := List.mem_of_find?_eq_some hfind
    have hpred := List.find?_some hfind
    have hp1 : lp.1 = o.price := by simpa using hpred
    refine ⟨(lp.1, lp.2 ++ [o]), ?_, by simp⟩
    have heq : (fun l : ℤ × List Order => if l.1 = o.price then (l.1, l.2 ++ [o]) else l) lp
        = (lp.1, lp.2 ++ [o]) := by simp [hp1]
    rw [← heq]
    exact List.mem_map_of_mem _ hmem
  · rw [if_neg h]
    exact ⟨(o.price, [o]), by simp, by simp⟩

theorem matchOrder_err_vol (b : Book) (o : Order) (hp : b.priceCompatible o = true)
    (hv : (b.sideOf o.otype.opp).volume < o.qty) :
    b.matchOrder o.otype.opp o = .error .insufficientVolume := by
  cases ho : o.otype with
  | BID =>
    simp only [Book.priceCompatible, ho] at hp
    simp only [ho, OType.opp, Book.sideOf] at hv ⊢
    simp only [Book.matchOrder, Book.sideOf]
    rw [if_pos hp, if_neg (not_le.mpr hv)]
  | ASK =>
    simp only [Book.priceCompatible, ho] at hp
    simp only [ho, OType.opp, Book.sideOf] at hv ⊢
    simp only [Book.matchOrder, Book.sideOf]
    rw [if_pos hp, if_neg (not_le.mpr hv)]

theorem matchOrder_err_price (b : Book) (o : Order) (hp : b.priceCompatible o = false) :
    b.matchOrder o.otype.opp o = .error .priceOutOfRange := by
  cases ho : o.otype with
  | BID =>
    simp only [Book.priceCompatible, ho] at hp
    simp only [ho, OType.opp]
    simp only [Book.matchOrder, Book.sideOf]
    rw [if_neg (by simp [hp])]
  | ASK =>
    simp only [Book.priceCompatible, ho] at hp
    simp only [ho, OType.opp]
    simp only [Book.matchOrder, Book.sideOf]
    rw [if_neg (by simp [hp])]

theorem add_eq_restOrder (b : Book) (o : Order) (hf : b.fundsOk o = true)
    (hm : b.matchOrder o.otype.opp o = .error .insufficientVolume ∨
          b.matchOrder o.otype.opp o = .error .priceOutOfRange) :
    b.add o = b.restOrder o := by
  unfold Book.fundsOk at hf
  cases hp : plookup b.participants o.owner with
  | none => rw [hp] at hf; cases ho : o.otype <;> rw [ho] at hf <;> simp at hf
  | some part =>
    cases ho : o.otype with
    | BID =>
      rw [hp, ho] at hf
      rw [ho] at hm
      simp only [OType.opp] at hm
      simp only [Book.add, Book.participantsView, hp, ho]
      rw [if_pos (of_decide_eq_true hf)]
      rcases hm with hm | hm <;> rw [hm]
    | ASK =>
      rw [hp, ho] at hf
      rw [ho] at hm
      simp only [OType.opp] at hm
      simp only [Book.add, Book.participantsView, hp, ho]
      rw [if_pos (of_decide_eq_true hf)]
      rcases hm with hm | hm <;> rw [hm]

theorem Book.oids_execute_subset (b : Book) (o : Order) (amt : Option Nat) (t : OType) :
    (((b.execute o amt).1).sideOf t).oids ⊆ (b.sideOf t).oids := by
  cases amt with
  | none =>
    cases hoo : o.otype <;> cases t <;>
      simp only [Book.execute, Book.executeFull, Book.payout, Book.sideOf, hoo] <;>
      first
        | exact Side.oids_remove_subset _ _
        | exact fun a ha => ha
  | some a0 =>
    by_cases h0 : a0 = 0
    · subst h0
      cases hoo : o.otype <;> cases t <;>
        simp only [Book.execute, Book.executeFull, Book.payout, Book.sideOf, hoo, reduceIte] <;>
        first
          | exact Side.oids_remove_subset _ _
          | exact fun a ha => ha
    · cases hoo : o.otype <;> cases t <;>
        simp only [Book.execute, Book.executePart, Book.payout, Book.sideOf, hoo, if_neg h0] <;>
        first
          | (rw [Side.oids_subQty]; exact fun a ha => ha)
          | exact fun a ha => ha

theorem Book.oids_sweepOrders_subset (t : OType) :
    ∀ (L : List Order) (b : Book) (o : Order),
      (((b.sweepOrders o L).1).sideOf t).oids ⊆ (b.sideOf t).oids := by
  intro L
  induction L with
  | nil => intro b o; exact fun a ha => ha
  | cons r rest ih =>
    intro b o
    unfold Book.sweepOrders
    by_cases h1 : o.qty < r.qty
    · rw [if_pos h1]
      intro a ha
      exact Book.oids_execute_subset b o none t
        (Book.oids_execute_subset (b.execute o none).1 r (some o.qty) t ha)
    · rw [if_neg h1]
      by_cases h2 : o.qty = r.qty
      · rw [if_pos h2]
        intro a ha
        exact Book.oids_execute_subset b o none t
          (Book.oids_execute_subset (b.execute o none).1 r none t ha)
      · rw [if_neg h2]
        intro a ha
        have h3 := ih ((b.execute o (some r.qty)).1.execute r none).1 (b.execute o (some r.qty)).2 ha
        exact Book.oids_execute_subset b o (some r.qty) t
          (Book.oids_execute_subset (b.execute o (some r.qty)).1 r none t h3)

theorem Book.oids_sweepPrices_subset (cs : OType) (t : OType) :
    ∀ (ps : List ℤ) (b : Book) (o : Order),
      ((b.sweepPrices cs o ps).sideOf t).oids ⊆ (b.sideOf t).oids := by
  intro ps
  induction ps with
  | nil => intro b o; exact fun a ha => ha
  | cons p rest ih =>
    intro b o
    unfold Book.sweepPrices
    cases hg : (b.sideOf cs).get p with
    | none => exact ih b o
    | some level =>
      dsimp only
      by_cases hm : (b.sweepOrders o level).2.2
      · rw [if_pos hm]
        exact Book.oids_sweepOrders_subset t level b o
      · rw [if_neg hm]
        intro a ha
        exact Book.oids_sweepOrders_subset t level b o (ih _ _ ha)

theorem Book.matchOrder_ok (b : Book) (cs : OType) (o : Order) (b1 : Book)
    (h : b.matchOrder cs o = .ok b1) :
    b1 = b.sweepPrices cs o (b.sideOf cs).prices := by
  unfold Book.matchOrder at h
  cases cs with
  | BID =>
    dsimp only at h
    by_cases h1 : decide (o.price ≤ (b.sideOf OType.BID).best) = true
    · rw [if_pos h1] at h
      by_cases h2 : o.qty ≤ (b.sideOf OType.BID).volume
      · rw [if_pos h2] at h
        exact (Except.ok.inj h).symm
      · rw [if_neg h2] at h
        cases h
    · rw [if_neg h1] at h
      cases h
  | ASK =>
    dsimp only at h
    by_cases h1 : decide ((b.sideOf OType.ASK).best ≤ o.price) = true
    · rw [if_pos h1] at h
      by_cases h2 : o.qty ≤ (b.sideOf OType.ASK).volume
      · rw [if_pos h2] at h
        exact (Except.ok.inj h).symm
      · rw [if_neg h2] at h
        cases h
    · rw [if_neg h1] at h
      cases h

end PyOBSim

namespace PyOBSim

/-- Claim C1 (failing on the code): in the full-match scenario — empty book,
ASK for 10 at 5 from S rests, BID for 10 at 5 from B is admitted — both
orders are indeed removed from the book and LTP becomes 5, but the
participant view shows every balance and position unchanged: B still has
balance 100 and position 0, S still has balance 100 and position 20, because
the settlement writes of Book._payout go to the deep copy returned by the
participants property and are discarded. -/
theorem full_match_leaves_ledger_unchanged :
    (demoBook.add c1Ask).2 = .ok (some 1) ∧
    (c1AfterAsk.add c1Bid).2 = .ok none ∧
    (c1AfterAsk.add c1Bid).1.bids.levels = [] ∧
    (c1AfterAsk.add c1Bid).1.asks.levels = [] ∧
    (c1AfterAsk.add c1Bid).1.LTP = 5 ∧
    plookup (c1AfterAsk.add c1Bid).1.participants "B" = some ⟨"B", 100, 0⟩ ∧
    plookup (c1AfterAsk.add c1Bid).1.participants "S" = some ⟨"S", 100, 20⟩ := by
  decide

/-- Claim C3: a BID whose notional exceeds the submitter's balance, and an
ASK whose quantity exceeds the submitter's position, are rejected by `add`
with InsufficientFunds, and the book is returned entirely unchanged — the
order never rests, never matches, and the ledger is untouched. -/
theorem funds_gate_rejects (b : Book) (o : Order) (part : Participant)
    (hreg : plookup b.participants o.owner = some part) :
    (o.otype = .BID → part.balance < o.price * (o.qty : ℤ) →
      b.add o = (b, .error .insufficientFunds)) ∧
    (o.otype = .ASK → part.volume < (o.qty : ℤ) →
      b.add o = (b, .error .insufficientFunds)) := by
  constructor
  · intro ht hlt
    simp only [Book.add, Book.participantsView, hreg, ht]
    rw [if_neg (not_le.mpr hlt)]
  · intro ht hlt
    simp only [Book.add, Book.participantsView, hreg, ht]
    rw [if_neg (not_le.mpr hlt)]

/-- Witness for C3: on the demo book, a BID for 30 at 5 (notional 150 over
balance 100) and an ASK for 30 (over position 20) are both rejected with
InsufficientFunds and leave the book unchanged. -/
theorem funds_gate_rejects_check :
    plookup demoBook.participants "B" = some demoB ∧
    plookup demoBook.participants "S" = some demoS ∧
    demoBook.add ⟨0, "B", .BID, 5, 30⟩ = (demoBook, .error .insufficientFunds) ∧
    demoBook.add ⟨0, "S", .ASK, 5, 30⟩ = (demoBook, .error .insufficientFunds) :=
  ⟨by decide, by decide,
    (funds_gate_rejects demoBook ⟨0, "B", .BID, 5, 30⟩ demoB (by decide)).1 rfl (by decide),
    (funds_gate_rejects demoBook ⟨0, "S", .ASK, 5, 30⟩ demoS (by decide)).2 rfl (by decide)⟩

/-- Claim C4: an admitted order with a price-compatible limit whose full
quantity exceeds the opposing side's total resting volume rests on its own
side instead of failing visibly: `add` returns the newly assigned identifier
and the order is findable on its own side with its original quantity and
price. -/
theorem insufficient_volume_rests (b : Book) (o : Order) (hf : b.fundsOk o = true)
    (hp : b.priceCompatible o = true)
    (hv : (b.sideOf o.otype.opp).volume < o.qty) :
    (b.add o).2 = .ok (some (b.bids.volume + b.asks.volume + 1)) ∧
    ((b.add o).1.sideOf o.otype).containsOrder
      ⟨b.bids.volume + b.asks.volume + 1, o.owner, o.otype, o.price, o.qty⟩ := by
  have hadd := add_eq_restOrder b o hf (.inl (matchOrder_err_vol b o hp hv))
  rw [hadd]
  unfold Book.restOrder Book.volume
  cases ho : o.otype with
  | BID =>
    refine ⟨rfl, ?_⟩
    simp only [Book.sideOf]
    exact Side.containsOrder_put _ _
  | ASK =>
    refine ⟨rfl, ?_⟩
    simp only [Book.sideOf]
    exact Side.containsOrder_put _ _

/-- Witness for C4: a BID for 10 at 5 against the demo book's empty ask side
(volume 0) rests with identifier 1 and is findable on the bid side. -/
theorem insufficient_volume_rests_check :
    demoBook.fundsOk c1Bid = true ∧
    demoBook.priceCompatible c1Bid = true ∧
    (demoBook.sideOf c1Bid.otype.opp).volume < c1Bid.qty ∧
    ((demoBook.add c1Bid).2 = .ok (some (demoBook.bids.volume + demoBook.asks.volume + 1)) ∧
      ((demoBook.add c1Bid).1.sideOf c1Bid.otype).containsOrder
        ⟨demoBook.bids.volume + demoBook.asks.volume + 1,
          c1Bid.owner, c1Bid.otype, c1Bid.price, c1Bid.qty⟩) :=
  ⟨by decide, by decide, by decide,
    insufficient_volume_rests demoBook c1Bid (by decide) (by decide) (by decide)⟩

/-- Claim C5: an admitted order whose limit price is not at-or-better than
the opposing side's best rests on its own side at its own price; the
opposing side, the LTP and the participant map are unchanged — no execution
occurs. -/
theorem price_out_of_range_rests (b : Book) (o : Order) (hf : b.fundsOk o = true)
    (hp : b.priceCompatible o = false) :
    (b.add o).2 = .ok (some (b.bids.volume + b.asks.volume + 1)) ∧
    (b.add o).1.sideOf o.otype
      = (b.sideOf o.otype).put
          ⟨b.bids.volume + b.asks.volume + 1, o.owner, o.otype, o.price, o.qty⟩ ∧
    (b.add o).1.sideOf o.otype.opp = b.sideOf o.otype.opp ∧
    (b.add o).1.LTP = b.LTP ∧
    (b.add o).1.participants = b.participants := by
  have hadd := add_eq_restOrder b o hf (.inr (matchOrder_err_price b o hp))
  rw [hadd]
  unfold Book.restOrder Book.volume
  cases ho : o.otype with
  | BID => exact ⟨rfl, rfl, rfl, rfl, rfl⟩
  | ASK => exact ⟨rfl, rfl, rfl, rfl, rfl⟩

/-- Witness for C5: with an ASK for 10 resting at 6, a BID for 7 at 5 is
price-incompatible, rests on the bid side at 5, and leaves the ask side, the
LTP and the participants unchanged. -/
theorem price_out_of_range_rests_check :
    askAt6Book.fundsOk ⟨0, "B", .BID, 5, 7⟩ = true ∧
    askAt6Book.priceCompatible ⟨0, "B", .BID, 5, 7⟩ = false ∧
    ((askAt6Book.add ⟨0, "B", .BID, 5, 7⟩).2
        = .ok (some (askAt6Book.bids.volume + askAt6Book.asks.volume + 1)) ∧
      (askAt6Book.add ⟨0, "B", .BID, 5, 7⟩).1.sideOf OType.BID
        = (askAt6Book.sideOf OType.BID).put
            ⟨askAt6Book.bids.volume + askAt6Book.asks.volume + 1, "B", .BID, 5, 7⟩ ∧
      (askAt6Book.add ⟨0, "B", .BID, 5, 7⟩).1.sideOf OType.ASK
        = askAt6Book.sideOf OType.ASK ∧
      (askAt6Book.add ⟨0, "B", .BID, 5, 7⟩).1.LTP = askAt6Book.LTP ∧
      (askAt6Book.add ⟨0, "B", .BID, 5, 7⟩).1.participants = askAt6Book.participants) :=
  ⟨by decide, by decide,
    price_out_of_range_rests askAt6Book ⟨0, "B", .BID, 5, 7⟩ (by decide) (by decide)⟩

/-- Claim C6: whenever an admitted order comes to rest — for either internal
signal, InsufficientVolume or PriceOutOfRange — `add` takes the resting path:
the fresh identifier is (current bid volume + current ask volume + 1)
evaluated at the moment of resting, it is stored on the order, the order is
rested on its own side, and the identifier is returned to the caller. -/
theorem fresh_identifier_on_rest (b : Book) (o : Order) (hf : b.fundsOk o = true)
    (hm : b.matchOrder o.otype.opp o = .error .insufficientVolume ∨
          b.matchOrder o.otype.opp o = .error .priceOutOfRange) :
    b.add o = b.restOrder o ∧
    (b.add o).2 = .ok (some (b.bids.volume + b.asks.volume + 1)) ∧
    ((b.add o).1.sideOf o.otype).containsOrder
      ⟨b.bids.volume + b.asks.volume + 1, o.owner, o.otype, o.price, o.qty⟩ := by
  have hadd := add_eq_restOrder b o hf hm
  refine ⟨hadd, ?_⟩
  rw [hadd]
  unfold Book.restOrder Book.volume
  cases ho : o.otype with
  | BID =>
    refine ⟨rfl, ?_⟩
    simp only [Book.sideOf]
    exact Side.containsOrder_put _ _
  | ASK =>
    refine ⟨rfl, ?_⟩
    simp only [Book.sideOf]
    exact Side.containsOrder_put _ _

/-- Witness for C6: with an ASK for 10 resting at 6 (bid volume 0, ask
volume 10), a price-incompatible BID for 7 at 5 rests with the fresh
identifier 0 + 10 + 1 = 11, which is stored on the rested order and
returned. -/
theorem fresh_identifier_on_rest_check :
    askAt6Book.fundsOk ⟨0, "B", .BID, 5, 7⟩ = true ∧
    askAt6Book.matchOrder OType.ASK ⟨0, "B", .BID, 5, 7⟩ = .error .priceOutOfRange ∧
    askAt6Book.bids.volume + askAt6Book.asks.volume + 1 = 11 ∧
    ((askAt6Book.add ⟨0, "B", .BID, 5, 7⟩) = askAt6Book.restOrder ⟨0, "B", .BID, 5, 7⟩ ∧
      (askAt6Book.add ⟨0, "B", .BID, 5, 7⟩).2
        = .ok (some (askAt6Book.bids.volume + askAt6Book.asks.volume + 1)) ∧
      ((askAt6Book.add ⟨0, "B", .BID, 5, 7⟩).1.sideOf OType.BID).containsOrder
        ⟨askAt6Book.bids.volume + askAt6Book.asks.volume + 1, "B", .BID, 5, 7⟩) :=
  ⟨by decide, by decide, by decide,
    fresh_identifier_on_rest askAt6Book ⟨0, "B", .BID, 5, 7⟩ (by decide) (.inr (by decide))⟩

/-- Claim C7: an admitted order that matches — Book._match returns without an
internal signal — completes the `add` call with no usable identifier (`None`),
and the incoming order does not come to rest: every identifier resting on
either side afterwards was already resting before, so an incoming identifier
absent before is absent after. -/
theorem matched_add_returns_no_identifier (b : Book) (o : Order) (b1 : Book)
    (hf : b.fundsOk o = true)
    (hm : b.matchOrder o.otype.opp o = .ok b1) :
    b.add o = (b1, .ok none) ∧
    (∀ t, (b1.sideOf t).oids ⊆ (b.sideOf t).oids) ∧
    (∀ t, o.oid ∉ (b.sideOf t).oids → o.oid ∉ (b1.sideOf t).oids) := by
  have hsub : ∀ t, (b1.sideOf t).oids ⊆ (b.sideOf t).oids := by
    intro t
    rw [Book.matchOrder_ok b o.otype.opp o b1 hm]
    exact Book.oids_sweepPrices_subset o.otype.opp t _ b o
  refine ⟨?_, hsub, fun t habs hmem => habs (hsub t hmem)⟩
  unfold Book.fundsOk at hf
  cases hp : plookup b.participants o.owner with
  | none => rw [hp] at hf; cases ho : o.otype <;> rw [ho] at hf <;> simp at hf
  | some part =>
    cases ho : o.otype with
    | BID =>
      rw [hp, ho] at hf
      rw [ho] at hm
      simp only [OType.opp] at hm
      simp only [Book.add, Book.participantsView, hp, ho]
      rw [if_pos (of_decide_eq_true hf), hm]
    | ASK =>
      rw [hp, ho] at hf
      rw [ho] at hm
      simp only [OType.opp] at hm
      simp only [Book.add, Book.participantsView, hp, ho]
      rw [if_pos (of_decide_eq_true hf), hm]

/-- Witness for C7: the full-match BID of the C1 scenario matches completely;
`add` returns no identifier, and identifier 0 (the incoming order's) rests on
neither side afterwards. -/
theorem matched_add_returns_no_identifier_check :
    c1AfterAsk.fundsOk c1Bid = true ∧
    c1AfterAsk.matchOrder OType.ASK c1Bid = .ok c1MatchedBook ∧
    (c1AfterAsk.add c1Bid = (c1MatchedBook, .ok none) ∧
      c1MatchedBook.bids.oids ⊆ c1AfterAsk.bids.oids ∧
      (c1Bid.oid ∉ c1AfterAsk.bids.oids → c1Bid.oid ∉ c1MatchedBook.bids.oids)) :=
  ⟨by decide, by decide,
    (matched_add_returns_no_identifier c1AfterAsk c1Bid c1MatchedBook (by decide) (by decide)).1,
    (matched_add_returns_no_identifier c1AfterAsk c1Bid c1MatchedBook (by decide) (by decide)).2.1
      OType.BID,
    (matched_add_returns_no_identifier c1AfterAsk c1Bid c1MatchedBook (by decide) (by decide)).2.2
      OType.BID⟩

/-- Claim C8 (failing on the code): for a parameter name not in the book's
parameter map, get_param and set_param do fail, but with the Python NameError
that results from raising the never-imported identifier NoSuchParameterError,
not with NoSuchParameter; for a recognized name, set_param stores the value
and get_param returns it. -/
theorem param_store_name_error :
    demoBook.get_param "nope" = .error .nameError ∧
    demoBook.set_param "nope" 3 = (demoBook, .error .nameError) ∧
    Err.nameError ≠ Err.noSuchParameter ∧
    (demoBook.set_param "tick" 7).2 = .ok () ∧
    ((demoBook.set_param "tick" 7).1.get_param "tick") = .ok 7 := by
  decide

/-- Claim C9: cancel removes the identifier from both sides unconditionally
and never raises: on a well-formed book it is a no-op when the identifier is
absent from both sides, a second cancel of the same identifier is a no-op,
the identifier is gone from both sides afterwards, and the participant map is
never touched. -/
theorem cancel_unconditional_idempotent (b : Book) (i : Nat) (hwf : b.wellFormed) :
    ((i ∉ b.bids.oids ∧ i ∉ b.asks.oids) → b.cancel i = b) ∧
    (b.cancel i).cancel i = b.cancel i ∧
    i ∉ (b.cancel i).bids.oids ∧
    i ∉ (b.cancel i).asks.oids ∧
    (b.cancel i).participants = b.participants := by
  refine ⟨?_, ?_, ?_, ?_, rfl⟩
  · rintro ⟨h1, h2⟩
    unfold Book.cancel
    rw [Side.remove_of_not_mem _ _ hwf.1 h1, Side.remove_of_not_mem _ _ hwf.2 h2]
  · unfold Book.cancel
    dsimp only
    rw [Side.remove_idem, Side.remove_idem]
  · exact Side.not_mem_oids_remove _ _
  · exact Side.not_mem_oids_remove _ _

/-- Witness for C9: on the book with one ASK resting (identifier 1),
cancelling the absent identifier 7 is a no-op, cancelling identifier 1 twice
equals cancelling it once, identifier 1 is gone afterwards, and the
participant map is untouched. -/
theorem cancel_unconditional_idempotent_check :
    askAt6Book.wellFormed ∧
    (7 ∉ askAt6Book.bids.oids ∧ 7 ∉ askAt6Book.asks.oids) ∧
    askAt6Book.cancel 7 = askAt6Book ∧
    (askAt6Book.cancel 1).cancel 1 = askAt6Book.cancel 1 ∧
    1 ∉ (askAt6Book.cancel 1).asks.oids ∧
    (askAt6Book.cancel 1).participants = askAt6Book.participants :=
  ⟨by decide, ⟨by decide, by decide⟩,
    (cancel_unconditional_idempotent askAt6Book 7 (by decide)).1 ⟨by decide, by decide⟩,
    (cancel_unconditional_idempotent askAt6Book 1 (by decide)).2.1,
    (cancel_unconditional_idempotent askAt6Book 1 (by decide)).2.2.2.1,
    (cancel_unconditional_idempotent askAt6Book 1 (by decide)).2.2.2.2⟩

/-- Claim C10: add_participant with an unregistered name completes without
error yet returns the book unchanged — the insertion lands on the deep copy
produced by the participants property, so the new participant is invisible
to every later call — while a duplicate name raises
ParticipantAlreadyExists. -/
theorem add_participant_lost_insertion (b : Book) (p : Participant) :
    (plookup b.participants p.name = none → b.add_participant p = (b, .ok ())) ∧
    (∀ q, plookup b.participants p.name = some q →
      b.add_participant p = (b, .error .participantAlreadyExists)) := by
  constructor
  · intro h
    unfold Book.add_participant
    rw [if_neg (by simp [h])]
  · intro q h
    unfold Book.add_participant
    rw [if_pos (by simp [h])]

/-- Witness for C10: registering the fresh participant C on the demo book
succeeds but returns the very same book (so C is not registered), and
re-registering B fails with ParticipantAlreadyExists. -/
theorem add_participant_lost_insertion_check :
    plookup demoBook.participants "C" = none ∧
    demoBook.add_participant ⟨"C", 1, 1⟩ = (demoBook, .ok ()) ∧
    plookup demoBook.participants "B" = some demoB ∧
    demoBook.add_participant ⟨"B", 1, 1⟩ = (demoBook, .error .participantAlreadyExists) :=
  ⟨by decide,
    (add_participant_lost_insertion demoBook ⟨"C", 1, 1⟩).1 (by decide),
    by decide,
    (add_participant_lost_insertion demoBook ⟨"B", 1, 1⟩).2 demoB (by decide)⟩

end PyOBSim
namespace PyOBSim

theorem find?_decomp {α : Type} (p : α → Bool) {ls : List α} {a : α}
    (h : ls.find? p = some a) :
    ∃ pre suf, ls = pre ++ a :: suf ∧ ∀ x ∈ pre, p x = false := by
  induction ls with
  | nil => cases h
  | cons l ls' ih =>
    cases hp : p l with
    | true =>
      rw [List.find?_cons_of_pos _ hp] at h
      cases h
      exact ⟨[], ls', rfl, by intro x hx; cases hx⟩
    | false =>
      rw [List.find?_cons_of_neg _ (by simp [hp])] at h
      obtain ⟨pre, suf, hls, hpre⟩ := ih h
      refine ⟨l :: pre, suf, by rw [hls]; rfl, ?_⟩
      intro x hx
      rcases List.mem_cons.mp hx with hx | hx
      · rw [hx]; exact hp
      · exact hpre x hx

/-- decomposition of a side whose level at p is r :: rest -/
theorem Side.get_decomp {s : Side} {p : ℤ} {L : List Order}
    (hget : s.get p = some L) :
    ∃ pre suf, s.levels = pre ++ (p, L) :: suf ∧ ∀ x ∈ pre, x.1 ≠ p := by
  unfold Side.get at hget
  cases hf : s.levels.find? (fun l => decide (l.1 = p)) with
  | none => rw [hf] at hget; cases hget
  | some lvl =>
    rw [hf] at hget
    have h2 : lvl.2 = L := by simpa using hget
    have h1 : lvl.1 = p := by simpa using List.find?_some hf
    obtain ⟨pre, suf, hls, hpre⟩ := find?_decomp _ hf
    refine ⟨pre, suf, ?_, ?_⟩
    · rw [hls, ← h1, ← h2]
    · intro x hx
      simpa using hpre x hx
end PyOBSim

namespace PyOBSim

theorem oids_eq_oidsOf (s : Side) : s.oids = oidsOf s.levels := rfl

theorem oidsOf_append (xs ys : List (ℤ × List Order)) :
    oidsOf (xs ++ ys) = oidsOf xs ++ oidsOf ys := by
  unfold oidsOf
  rw [List.map_append, List.flatten_append, List.map_append]

theorem oidsOf_cons (l : ℤ × List Order) (ls : List (ℤ × List Order)) :
    oidsOf (l :: ls) = l.2.map Order.oid ++ oidsOf ls := by
  unfold oidsOf
  rw [List.map_cons, List.flatten_cons, List.map_append]

theorem mem_oidsOf {i : Nat} {ls : List (ℤ × List Order)} :
    i ∈ oidsOf ls ↔ ∃ l ∈ ls, ∃ o ∈ l.2, o.oid = i := Side.mem_oids (s := ⟨.BID, ls⟩)

theorem remove_map_id (i : Nat) (ls : List (ℤ × List Order)) (h : i ∉ oidsOf ls) :
    ls.map (fun l => (l.1, l.2.filter (fun o => decide (o.oid ≠ i)))) = ls := by
  have hcg : ∀ l ∈ ls,
      (fun l : ℤ × List Order => (l.1, l.2.filter (fun o => decide (o.oid ≠ i)))) l = id l := by
    intro l hl
    have hfe : l.2.filter (fun o => decide (o.oid ≠ i)) = l.2 := by
      apply List.filter_eq_self.mpr
      intro o ho
      simp only [decide_eq_true_eq]
      intro he
      exact h (mem_oidsOf.mpr ⟨l, hl, o, ho, he⟩)
    show (l.1, l.2.filter (fun o => decide (o.oid ≠ i))) = l
    rw [hfe]
  rw [List.map_congr_left hcg, List.map_id]

theorem subQty_map_id (i a : Nat) (ls : List (ℤ × List Order)) (h : i ∉ oidsOf ls) :
    ls.map (fun l =>
      (l.1, l.2.map (fun o =>
        if o.oid = i then (⟨o.oid, o.owner, o.otype, o.price, o.qty - a⟩ : Order) else o))) = ls := by
  have hcg : ∀ l ∈ ls,
      (fun l : ℤ × List Order => (l.1, l.2.map (fun o =>
        if o.oid = i then (⟨o.oid, o.owner, o.otype, o.price, o.qty - a⟩ : Order) else o))) l
        = id l := by
    intro l hl
    have hfe : l.2.map (fun o =>
        if o.oid = i then (⟨o.oid, o.owner, o.otype, o.price, o.qty - a⟩ : Order) else o) = l.2 := by
      have : ∀ o ∈ l.2, (fun o : Order =>
          if o.oid = i then (⟨o.oid, o.owner, o.otype, o.price, o.qty - a⟩ : Order) else o) o
          = id o := by
        intro o ho
        have hne : o.oid ≠ i := fun he => h (mem_oidsOf.mpr ⟨l, hl, o, ho, he⟩)
        simp [hne]
      rw [List.map_congr_left this, List.map_id]
    show (l.1, l.2.map _) = l
    rw [hfe]
  rw [List.map_congr_left hcg, List.map_id]

theorem filter_id_of_wf (ls : List (ℤ × List Order)) (h : ∀ l ∈ ls, l.2 ≠ []) :
    ls.filter (fun l => decide (l.2 ≠ [])) = ls := by
  apply List.filter_eq_self.mpr
  intro l hl
  simpa using h l hl

theorem nodup_split {p : ℤ} {r : Order} {rest : List Order}
    {pre suf : List (ℤ × List Order)}
    (hnd : (oidsOf (pre ++ (p, r :: rest) :: suf)).Nodup) :
    r.oid ∉ oidsOf pre ∧ r.oid ∉ (rest.map Order.oid) ∧ r.oid ∉ oidsOf suf := by
  rw [oidsOf_append, oidsOf_cons] at hnd
  simp only [List.map_cons] at hnd
  rw [List.nodup_append] at hnd
  obtain ⟨hnd1, hnd2, hdisj⟩ := hnd
  have hmem : r.oid ∈ (r.oid :: rest.map Order.oid) ++ oidsOf suf := by simp
  refine ⟨fun hc => hdisj hc hmem, ?_, ?_⟩
  · rw [List.nodup_append] at hnd2
    have := hnd2.1
    rw [List.nodup_cons] at this
    exact this.1
  · rw [List.nodup_append] at hnd2
    intro hc
    exact hnd2.2.2 (by simp) hc

theorem Side.remove_head_levels (s : Side) (p : ℤ) (r : Order) (rest : List Order)
    (pre suf : List (ℤ × List Order))
    (hls : s.levels = pre ++ (p, r :: rest) :: suf)
    (hwf : s.wellFormed) (hnd : s.oids.Nodup) :
    (s.remove r.oid).levels = pre ++ (if rest.isEmpty then [] else [(p, rest)]) ++ suf := by
  rw [oids_eq_oidsOf, hls] at hnd
  obtain ⟨hp1, hp2, hp3⟩ := nodup_split hnd
  have hwf' : ∀ l ∈ s.levels, l.2 ≠ [] := hwf
  rw [hls] at hwf'
  unfold Side.remove
  rw [hls]
  rw [List.map_append, List.map_cons]
  rw [remove_map_id _ _ hp1]
  have hsuf : suf.map (fun l => (l.1, l.2.filter (fun o => decide (o.oid ≠ r.oid)))) = suf :=
    remove_map_id _ _ hp3
  rw [hsuf]
  have hmid : (r :: rest).filter (fun o => decide (o.oid ≠ r.oid)) = rest := by
    rw [List.filter_cons]
    have h1 : (decide (r.oid ≠ r.oid)) = false := by simp
    rw [h1]
    simp only [Bool.false_eq_true, if_false]
    apply List.filter_eq_self.mpr
    intro o ho
    simp only [decide_eq_true_eq]
    intro he
    exact hp2 (he ▸ List.mem_map_of_mem Order.oid ho)
  rw [hmid]
  rw [List.filter_append, List.filter_cons]
  have hpref : pre.filter (fun l => decide (l.2 ≠ [])) = pre :=
    filter_id_of_wf pre (fun l hl => hwf' l (List.mem_append_left _ hl))
  have hsuff : suf.filter (fun l => decide (l.2 ≠ [])) = suf :=
    filter_id_of_wf suf (fun l hl =>
      hwf' l (List.mem_append_right _ (List.mem_cons_of_mem _ hl)))
  rw [hpref, hsuff]
  cases hrest : rest with
  | nil => simp
  | cons x xs => simp
end PyOBSim

namespace PyOBSim

theorem Side.subQty_head_levels (s : Side) (p : ℤ) (r : Order) (rest : List Order)
    (pre suf : List (ℤ × List Order)) (a : Nat)
    (hls : s.levels = pre ++ (p, r :: rest) :: suf)
    (hnd : s.oids.Nodup) :
    (s.subQty r.oid a).levels
      = pre ++ (p, (⟨r.oid, r.owner, r.otype, r.price, r.qty - a⟩ : Order) :: rest) :: suf := by
  rw [oids_eq_oidsOf, hls] at hnd
  obtain ⟨hp1, hp2, hp3⟩ := nodup_split hnd
  unfold Side.subQty
  rw [hls, List.map_append, List.map_cons, subQty_map_id _ _ _ hp1, subQty_map_id _ _ _ hp3]
  dsimp only
  congr 2
  rw [List.map_cons]
  have hcg : ∀ o ∈ rest, (fun o : Order =>
      if o.oid = r.oid then (⟨o.oid, o.owner, o.otype, o.price, o.qty - a⟩ : Order) else o) o
      = id o := by
    intro o ho
    have hne : o.oid ≠ r.oid := fun he => hp2 (he ▸ List.mem_map_of_mem Order.oid ho)
    simp [hne]
  rw [if_pos rfl, List.map_congr_left hcg, List.map_id]

theorem find?_none_of_all {α : Type} (q : α → Bool) (l : List α)
    (h : ∀ x ∈ l, q x = false) : l.find? q = none := by
  induction l with
  | nil => rfl
  | cons x xs ih =>
    rw [List.find?_cons_of_neg _ (by simp [h x (by simp)])]
    exact ih (fun y hy => h y (List.mem_cons_of_mem _ hy))

theorem keys_split {p : ℤ} {L : List Order} {pre suf : List (ℤ × List Order)} {s : Side}
    (hls : s.levels = pre ++ (p, L) :: suf) (hk : s.keysNodup) :
    ∀ x ∈ suf, x.1 ≠ p := by
  unfold Side.keysNodup at hk
  rw [hls, List.map_append, List.map_cons] at hk
  rw [List.nodup_append] at hk
  obtain ⟨_, hk2, _⟩ := hk
  rw [List.nodup_cons] at hk2
  intro x hx he
  exact hk2.1 (he ▸ List.mem_map_of_mem (fun l => l.1) hx)

theorem Side.get_remove_head (s : Side) (p : ℤ) (r : Order) (rest : List Order)
    (hget : s.get p = some (r :: rest))
    (hwf : s.wellFormed) (hk : s.keysNodup) (hnd : s.oids.Nodup) :
    (s.remove r.oid).get p = if rest.isEmpty then none else some rest := by
  obtain ⟨pre, suf, hls, hpre⟩ := Side.get_decomp hget
  have hlv := Side.remove_head_levels s p r rest pre suf hls hwf hnd
  have hsufk := keys_split hls hk
  show ((s.remove r.oid).levels.find? (fun l => decide (l.1 = p))).map (fun l => l.2)
      = if rest.isEmpty then none else some rest
  rw [hlv]
  rw [List.find?_append, List.find?_append]
  rw [find?_none_of_all _ pre (fun x hx => by simpa using hpre x hx)]
  rw [find?_none_of_all _ suf (fun x hx => by simpa using hsufk x hx)]
  cases hrest : rest with
  | nil => simp
  | cons x xs => simp

theorem Side.get_remove_other (s : Side) (p : ℤ) (r : Order) (rest : List Order)
    (hget : s.get p = some (r :: rest))
    (hwf : s.wellFormed) (hnd : s.oids.Nodup) :
    ∀ p', p' ≠ p → (s.remove r.oid).get p' = s.get p' := by
  intro p' hne
  obtain ⟨pre, suf, hls, hpre⟩ := Side.get_decomp hget
  have hlv := Side.remove_head_levels s p r rest pre suf hls hwf hnd
  show ((s.remove r.oid).levels.find? (fun l => decide (l.1 = p'))).map (fun l => l.2)
      = s.get p'
  rw [hlv]
  unfold Side.get
  rw [hls, show pre ++ (p, r :: rest) :: suf = pre ++ [(p, r :: rest)] ++ suf from by simp]
  simp only [List.find?_append]
  have h1 : (if rest.isEmpty = true then [] else [(p, rest)]).find?
      (fun l => decide (l.1 = p')) = none := by
    cases rest with
    | nil => rfl
    | cons x xs => simp [Ne.symm hne]
  have h2 : ([(p, r :: rest)] : List (ℤ × List Order)).find?
      (fun l => decide (l.1 = p')) = none := by
    simp [Ne.symm hne]
  rw [h1, h2]

theorem Side.get_subQty_head (s : Side) (p : ℤ) (r : Order) (rest : List Order) (a : Nat)
    (hget : s.get p = some (r :: rest)) (hnd : s.oids.Nodup) :
    (s.subQty r.oid a).get p
      = some ((⟨r.oid, r.owner, r.otype, r.price, r.qty - a⟩ : Order) :: rest) := by
  obtain ⟨pre, suf, hls, hpre⟩ := Side.get_decomp hget
  have hlv := Side.subQty_head_levels s p r rest pre suf a hls hnd
  show ((s.subQty r.oid a).levels.find? (fun l => decide (l.1 = p))).map (fun l => l.2)
      = _
  rw [hlv]
  rw [List.find?_append]
  rw [find?_none_of_all _ pre (fun x hx => by simpa using hpre x hx)]
  simp

theorem Side.get_subQty_other (s : Side) (p : ℤ) (r : Order) (rest : List Order) (a : Nat)
    (hget : s.get p = some (r :: rest)) (hnd : s.oids.Nodup) :
    ∀ p', p' ≠ p → (s.subQty r.oid a).get p' = s.get p' := by
  intro p' hne
  obtain ⟨pre, suf, hls, hpre⟩ := Side.get_decomp hget
  have hlv := Side.subQty_head_levels s p r rest pre suf a hls hnd
  show ((s.subQty r.oid a).levels.find? (fun l => decide (l.1 = p'))).map (fun l => l.2)
      = s.get p'
  rw [hlv]
  unfold Side.get
  rw [hls, show pre ++ (p, r :: rest) :: suf = pre ++ [(p, r :: rest)] ++ suf from by simp,
    show pre ++ (p, (⟨r.oid, r.owner, r.otype, r.price, r.qty - a⟩ : Order) :: rest) :: suf
      = pre ++ [(p, (⟨r.oid, r.owner, r.otype, r.price, r.qty - a⟩ : Order) :: rest)] ++ suf
      from by simp]
  simp only [List.find?_append]
  have h1 : ([(p, (⟨r.oid, r.owner, r.otype, r.price, r.qty - a⟩ : Order) :: rest)] :
      List (ℤ × List Order)).find? (fun l => decide (l.1 = p')) = none := by
    simp [Ne.symm hne]
  have h2 : ([(p, r :: rest)] : List (ℤ × List Order)).find?
      (fun l => decide (l.1 = p')) = none := by
    simp [Ne.symm hne]
  rw [h1, h2]

theorem Side.subQty_of_not_mem (s : Side) (i a : Nat) (h : i ∉ s.oids) :
    s.subQty i a = s := by
  cases s with
  | mk t ls =>
    unfold Side.subQty
    simp only
    rw [subQty_map_id i a ls h]

end PyOBSim
namespace PyOBSim

theorem OType.opp_opp (t : OType) : t.opp.opp = t := by cases t <;> rfl

theorem Side.oids_remove_sublist (s : Side) (i : Nat) :
    ((s.remove i).oids).Sublist s.oids := by
  cases s with
  | mk t ls =>
    show (oidsOf ((ls.map (fun l => (l.1, l.2.filter (fun o => decide (o.oid ≠ i))))).filter
        (fun l => decide (l.2 ≠ [])))).Sublist (oidsOf ls)
    induction ls with
    | nil => exact List.Sublist.refl _
    | cons l ls' ih =>
      rw [List.map_cons, List.filter_cons, oidsOf_cons]
      cases hg : decide ((l.2.filter (fun o => decide (o.oid ≠ i))) ≠ []) with
      | true =>
        simp only [if_pos]
        rw [oidsOf_cons]
        exact List.Sublist.append
          (List.Sublist.map Order.oid (List.filter_sublist _)) ih
      | false =>
        simp only [Bool.false_eq_true, if_false]
        exact ih.trans (List.sublist_append_right _ _)

theorem Side.keys_remove_sublist (s : Side) (i : Nat) :
    ((s.remove i).levels.map (fun l => l.1)).Sublist (s.levels.map (fun l => l.1)) := by
  cases s with
  | mk t ls =>
    show ((((ls.map (fun l => (l.1, l.2.filter (fun o => decide (o.oid ≠ i))))).filter
        (fun l => decide (l.2 ≠ []))).map (fun l => l.1))).Sublist (ls.map (fun l => l.1))
    have h1 := List.filter_sublist
      (l := ls.map (fun l => (l.1, l.2.filter (fun o => decide (o.oid ≠ i)))))
      (p := fun l => decide (l.2 ≠ []))
    have h2 := List.Sublist.map (fun l : ℤ × List Order => l.1) h1
    rw [List.map_map] at h2
    simpa using h2

theorem Book.execute_none (b : Book) (o : Order) : b.execute o none = b.executeFull o := rfl

theorem Book.execute_some_ne (b : Book) (o : Order) (a : Nat) (h : a ≠ 0) :
    b.execute o (some a) = b.executePart o a := by
  show (if a = 0 then b.executeFull o else b.executePart o a) = b.executePart o a
  rw [if_neg h]

theorem Book.executeFull_spec (b : Book) (o : Order) :
    ((b.executeFull o).1).sideOf o.otype = (b.sideOf o.otype).remove o.oid ∧
    ((b.executeFull o).1).sideOf o.otype.opp = b.sideOf o.otype.opp ∧
    ((b.executeFull o).1).LTP = o.price ∧
    ((b.executeFull o).1).participants = b.participants ∧
    (b.executeFull o).2 = o := by
  cases ho : o.otype <;>
    simp [Book.executeFull, Book.payout, Book.sideOf, OType.opp, ho, Book.participantsView]

theorem Book.executePart_spec (b : Book) (o : Order) (a : Nat) :
    ((b.executePart o a).1).sideOf o.otype = (b.sideOf o.otype).subQty o.oid a ∧
    ((b.executePart o a).1).sideOf o.otype.opp = b.sideOf o.otype.opp ∧
    ((b.executePart o a).1).LTP = o.price ∧
    ((b.executePart o a).1).participants = b.participants ∧
    (b.executePart o a).2 = ⟨o.oid, o.owner, o.otype, o.price, o.qty - a⟩ := by
  cases ho : o.otype <;>
    simp [Book.executePart, Book.payout, Book.sideOf, OType.opp, ho, Book.participantsView]

end PyOBSim

namespace PyOBSim

theorem sweepOrders_fifo (cs : OType) :
    ∀ (L : List Order) (b : Book) (o : Order) (p : ℤ),
      (b.sideOf cs).get p = some L →
      (b.sideOf cs).wellFormed →
      (b.sideOf (OType.opp cs)).wellFormed →
      (b.sideOf cs).keysNodup →
      (b.sideOf cs).oids.Nodup →
      o.otype = OType.opp cs →
      o.oid ∉ (b.sideOf (OType.opp cs)).oids →
      (∀ r ∈ L, r.otype = cs ∧ r.price = p ∧ 0 < r.qty) →
      0 < o.qty →
      (((b.sweepOrders o L).1.sideOf cs).get p
          = if (specFill o.qty L).1.isEmpty then none else some (specFill o.qty L).1) ∧
      (∀ p', p' ≠ p → ((b.sweepOrders o L).1.sideOf cs).get p' = (b.sideOf cs).get p') ∧
      ((b.sweepOrders o L).1.sideOf (OType.opp cs) = b.sideOf (OType.opp cs)) ∧
      ((b.sweepOrders o L).1.LTP = p) ∧
      ((b.sweepOrders o L).1.participants = b.participants) ∧
      ((b.sweepOrders o L).2.1
          = ⟨o.oid, o.owner, o.otype, o.price, (specFill o.qty L).2.1⟩) ∧
      ((b.sweepOrders o L).2.2 = (specFill o.qty L).2.2) := by
  intro L
  induction L with
  | nil =>
    intro b o p hget hwf hwfo hk hnd hot hoid hpr hq
    exfalso
    obtain ⟨pre, suf, hls, hpre⟩ := Side.get_decomp hget
    exact hwf (p, []) (by rw [hls]; exact List.mem_append_right _ (List.mem_cons_self _ _)) rfl
  | cons r rest ih =>
    intro b o p hget hwf hwfo hk hnd hot hoid hpr hq
    obtain ⟨hrot, hrp, hrq⟩ := hpr r (List.mem_cons_self r rest)
    by_cases h1 : o.qty < r.qty
    · -- incoming smaller: incoming executed in full, resting head reduced, matched
      have hq0 : o.qty ≠ 0 := Nat.pos_iff_ne_zero.mp hq
      have hsw : b.sweepOrders o (r :: rest)
          = ((((b.executeFull o).1).executePart r o.qty).1, o, true) := by
        show (if o.qty < r.qty then
              (let br := b.execute o none
               let br2 := br.1.execute r (some o.qty)
               (br2.1, o, true))
            else if o.qty = r.qty then
              (let br := b.execute o none
               let br2 := br.1.execute r none
               (br2.1, o, true))
            else
              (let br := b.execute o (some r.qty)
               let br2 := br.1.execute r none
               br2.1.sweepOrders br.2 rest))
          = ((((b.executeFull o).1).executePart r o.qty).1, o, true)
        rw [if_pos h1]
        show (((b.execute o none).1.execute r (some o.qty)).1, o, true) = _
        rw [Book.execute_none, Book.execute_some_ne _ _ _ hq0]
      have hsf : specFill o.qty (r :: rest)
          = ((⟨r.oid, r.owner, r.otype, r.price, r.qty - o.qty⟩ : Order) :: rest, o.qty, true) := by
        simp only [specFill]
        rw [if_pos h1]
      have hbf := Book.executeFull_spec b o
      have hown : (b.executeFull o).1.sideOf (OType.opp cs) = b.sideOf (OType.opp cs) := by
        rw [← hot, hbf.1, hot]
        exact Side.remove_of_not_mem _ _ hwfo (by rw [← hot] at hoid; rw [← hot]; exact hoid)
      have hcs : (b.executeFull o).1.sideOf cs = b.sideOf cs := by
        have := hbf.2.1
        rw [hot, OType.opp_opp] at this
        exact this
      have hep := Book.executePart_spec (b.executeFull o).1 r o.qty
      have hfin1 : (((b.executeFull o).1).executePart r o.qty).1.sideOf cs
          = (b.sideOf cs).subQty r.oid o.qty := by
        rw [← hrot, hep.1, hrot, hcs]
      have hfin2 : (((b.executeFull o).1).executePart r o.qty).1.sideOf (OType.opp cs)
          = b.sideOf (OType.opp cs) := by
        have := hep.2.1
        rw [hrot] at this
        rw [this, hown]
      refine ⟨?_, ?_, ?_, ?_, ?_, ?_, ?_⟩
      · rw [hsw, hsf]
        show ((((b.executeFull o).1).executePart r o.qty).1.sideOf cs).get p = _
        rw [hfin1]
        rw [Side.get_subQty_head (b.sideOf cs) p r rest o.qty hget hnd]
        rfl
      · intro p' hne
        rw [hsw]
        show ((((b.executeFull o).1).executePart r o.qty).1.sideOf cs).get p' = _
        rw [hfin1]
        exact Side.get_subQty_other (b.sideOf cs) p r rest o.qty hget hnd p' hne
      · rw [hsw]
        exact hfin2
      · rw [hsw]
        show (((b.executeFull o).1).executePart r o.qty).1.LTP = p
        rw [← hrp]
        exact hep.2.2.1
      · rw [hsw]
        show (((b.executeFull o).1).executePart r o.qty).1.participants = b.participants
        rw [hep.2.2.2.1, hbf.2.2.2.1]
      · rw [hsw, hsf]
      · rw [hsw, hsf]
    · by_cases h2 : o.qty = r.qty
      · -- equal: both executed in full, matched
        have hsw : b.sweepOrders o (r :: rest)
            = ((((b.executeFull o).1).executeFull r).1, o, true) := by
          show (if o.qty < r.qty then
                (let br := b.execute o none
                 let br2 := br.1.execute r (some o.qty)
                 (br2.1, o, true))
              else if o.qty = r.qty then
                (let br := b.execute o none
                 let br2 := br.1.execute r none
                 (br2.1, o, true))
              else
                (let br := b.execute o (some r.qty)
                 let br2 := br.1.execute r none
                 br2.1.sweepOrders br.2 rest))
            = ((((b.executeFull o).1).executeFull r).1, o, true)
          rw [if_neg h1, if_pos h2]
          show (((b.execute o none).1.execute r none).1, o, true) = _
          simp only [Book.execute_none]
        have hsf : specFill o.qty (r :: rest) = (rest, o.qty, true) := by
          simp only [specFill]
          rw [if_neg h1, if_pos h2]
        have hbf := Book.executeFull_spec b o
        have hown : (b.executeFull o).1.sideOf (OType.opp cs) = b.sideOf (OType.opp cs) := by
          rw [← hot, hbf.1, hot]
          exact Side.remove_of_not_mem _ _ hwfo (by rw [← hot] at hoid; rw [← hot]; exact hoid)
        have hcs : (b.executeFull o).1.sideOf cs = b.sideOf cs := by
          have := hbf.2.1
          rw [hot, OType.opp_opp] at this
          exact this
        have hef := Book.executeFull_spec (b.executeFull o).1 r
        have hfin1 : (((b.executeFull o).1).executeFull r).1.sideOf cs
            = (b.sideOf cs).remove r.oid := by
          rw [← hrot, hef.1, hrot, hcs]
        have hfin2 : (((b.executeFull o).1).executeFull r).1.sideOf (OType.opp cs)
            = b.sideOf (OType.opp cs) := by
          have := hef.2.1
          rw [hrot] at this
          rw [this, hown]
        refine ⟨?_, ?_, ?_, ?_, ?_, ?_, ?_⟩
        · rw [hsw, hsf]
          show ((((b.executeFull o).1).executeFull r).1.sideOf cs).get p = _
          rw [hfin1]
          exact Side.get_remove_head (b.sideOf cs) p r rest hget hwf hk hnd
        · intro p' hne
          rw [hsw]
          show ((((b.executeFull o).1).executeFull r).1.sideOf cs).get p' = _
          rw [hfin1]
          exact Side.get_remove_other (b.sideOf cs) p r rest hget hwf hnd p' hne
        · rw [hsw]
          exact hfin2
        · rw [hsw]
          show (((b.executeFull o).1).executeFull r).1.LTP = p
          rw [← hrp]
          exact hef.2.2.1
        · rw [hsw]
          show (((b.executeFull o).1).executeFull r).1.participants = b.participants
          rw [hef.2.2.2.1, hbf.2.2.2.1]
        · rw [hsw, hsf]
        · rw [hsw, hsf]
      · -- incoming larger: resting head executed in full, continue within the level
        have hgt : r.qty < o.qty :=
          lt_of_le_of_ne (not_lt.mp h1) (fun he => h2 he.symm)
        have hrq0 : r.qty ≠ 0 := Nat.pos_iff_ne_zero.mp hrq
        have hsw : b.sweepOrders o (r :: rest)
            = ((((b.executePart o r.qty).1).executeFull r).1).sweepOrders
                ((b.executePart o r.qty).2) rest := by
          show (if o.qty < r.qty then
                (let br := b.execute o none
                 let br2 := br.1.execute r (some o.qty)
                 (br2.1, o, true))
              else if o.qty = r.qty then
                (let br := b.execute o none
                 let br2 := br.1.execute r none
                 (br2.1, o, true))
              else
                (let br := b.execute o (some r.qty)
                 let br2 := br.1.execute r none
                 br2.1.sweepOrders br.2 rest))
            = ((((b.executePart o r.qty).1).executeFull r).1).sweepOrders
                ((b.executePart o r.qty).2) rest
          rw [if_neg h1, if_neg h2]
          show (((b.execute o (some r.qty)).1.execute r none).1).sweepOrders
              ((b.execute o (some r.qty)).2) rest = _
          rw [Book.execute_some_ne _ _ _ hrq0, Book.execute_none]
        have hsf : specFill o.qty (r :: rest) = specFill (o.qty - r.qty) rest := by
          simp only [specFill]
          rw [if_neg h1, if_neg h2]
        have hep := Book.executePart_spec b o r.qty
        have ho1 : (b.executePart o r.qty).2
            = ⟨o.oid, o.owner, o.otype, o.price, o.qty - r.qty⟩ := hep.2.2.2.2
        have hown1 : (b.executePart o r.qty).1.sideOf (OType.opp cs)
            = b.sideOf (OType.opp cs) := by
          rw [← hot, hep.1, hot]
          exact Side.subQty_of_not_mem _ _ _ (by rw [← hot] at hoid; rw [← hot]; exact hoid)
        have hcs1 : (b.executePart o r.qty).1.sideOf cs = b.sideOf cs := by
          have := hep.2.1
          rw [hot, OType.opp_opp] at this
          exact this
        have hef := Book.executeFull_spec (b.executePart o r.qty).1 r
        have hb2cs : (((b.executePart o r.qty).1).executeFull r).1.sideOf cs
            = (b.sideOf cs).remove r.oid := by
          rw [← hrot, hef.1, hrot, hcs1]
        have hb2own : (((b.executePart o r.qty).1).executeFull r).1.sideOf (OType.opp cs)
            = b.sideOf (OType.opp cs) := by
          have := hef.2.1
          rw [hrot] at this
          rw [this, hown1]
        have hb2part : (((b.executePart o r.qty).1).executeFull r).1.participants
            = b.participants := by
          rw [hef.2.2.2.1, hep.2.2.2.1]
        cases hrest : rest with
        | nil =>
          subst hrest
          have hsf0 : specFill o.qty [r] = ([], o.qty - r.qty, false) := by
            rw [hsf]
            rfl
          refine ⟨?_, ?_, ?_, ?_, ?_, ?_, ?_⟩
          · rw [hsw, hsf0]
            show ((((b.executePart o r.qty).1).executeFull r).1.sideOf cs).get p = none
            rw [hb2cs]
            have := Side.get_remove_head (b.sideOf cs) p r [] hget hwf hk hnd
            simpa using this
          · intro p' hne
            rw [hsw]
            show ((((b.executePart o r.qty).1).executeFull r).1.sideOf cs).get p' = _
            rw [hb2cs]
            exact Side.get_remove_other (b.sideOf cs) p r [] hget hwf hnd p' hne
          · rw [hsw]
            exact hb2own
          · rw [hsw]
            show (((b.executePart o r.qty).1).executeFull r).1.LTP = p
            rw [← hrp]
            exact hef.2.2.1
          · rw [hsw]
            exact hb2part
          · rw [hsw, hsf0, ho1]
            rfl
          · rw [hsw, hsf0]
            rfl
        | cons x xs =>
          have hrne : rest ≠ [] := by rw [hrest]; exact List.cons_ne_nil _ _
          rw [← hrest]
          have hgetrest : ((((b.executePart o r.qty).1).executeFull r).1.sideOf cs).get p
              = some rest := by
            rw [hb2cs]
            rw [Side.get_remove_head (b.sideOf cs) p r rest hget hwf hk hnd]
            rw [hrest]
            rfl
          have hwf2 : ((((b.executePart o r.qty).1).executeFull r).1.sideOf cs).wellFormed := by
            rw [hb2cs]
            exact Side.wf_remove _ _
          have hk2 : ((((b.executePart o r.qty).1).executeFull r).1.sideOf cs).keysNodup := by
            rw [hb2cs]
            exact List.Nodup.sublist (Side.keys_remove_sublist _ _) hk
          have hnd2 : ((((b.executePart o r.qty).1).executeFull r).1.sideOf cs).oids.Nodup := by
            rw [hb2cs]
            exact List.Nodup.sublist (Side.oids_remove_sublist _ _) hnd
          have hwfo2 : ((((b.executePart o r.qty).1).executeFull r).1.sideOf
              (OType.opp cs)).wellFormed := by
            rw [hb2own]
            exact hwfo
          have hoid2 : ((b.executePart o r.qty).2).oid
              ∉ ((((b.executePart o r.qty).1).executeFull r).1.sideOf (OType.opp cs)).oids := by
            rw [hb2own, ho1]
            exact hoid
          have hot2 : ((b.executePart o r.qty).2).otype = OType.opp cs := by
            rw [ho1]
            exact hot
          have hpr2 : ∀ r' ∈ rest, r'.otype = cs ∧ r'.price = p ∧ 0 < r'.qty :=
            fun r' hr' => hpr r' (List.mem_cons_of_mem _ hr')
          have hq2 : 0 < ((b.executePart o r.qty).2).qty := by
            rw [ho1]
            exact Nat.sub_pos_of_lt hgt
          have IH := ih (((b.executePart o r.qty).1).executeFull r).1
            ((b.executePart o r.qty).2) p hgetrest hwf2 hwfo2 hk2 hnd2 hot2 hoid2 hpr2 hq2
          have hq1eq : ((b.executePart o r.qty).2).qty = o.qty - r.qty := by rw [ho1]
          refine ⟨?_, ?_, ?_, ?_, ?_, ?_, ?_⟩
          · rw [hsw, hsf, ← hq1eq]
            exact IH.1
          · intro p' hne
            rw [hsw]
            rw [IH.2.1 p' hne, hb2cs]
            exact Side.get_remove_other (b.sideOf cs) p r rest hget hwf hnd p' hne
          · rw [hsw, IH.2.2.1, hb2own]
          · rw [hsw]
            exact IH.2.2.2.1
          · rw [hsw, IH.2.2.2.2.1, hb2part]
          · rw [hsw, IH.2.2.2.2.2.1, ho1, hsf, ← hq1eq]
          · rw [hsw, IH.2.2.2.2.2.2, hsf, ← hq1eq]

end PyOBSim
namespace PyOBSim

theorem Side.prices_sorted (s : Side) (t : OType) (hst : s.stype = t) :
    List.Sorted (bestFirst t) s.prices := by
  cases t with
  | BID =>
    show List.Sorted (bestFirst OType.BID) s.prices
    unfold Side.prices
    rw [hst]
    exact List.sorted_insertionSort (fun a b : ℤ => b ≤ a) _
  | ASK =>
    show List.Sorted (bestFirst OType.ASK) s.prices
    unfold Side.prices
    rw [hst]
    exact List.sorted_insertionSort (fun a b : ℤ => a ≤ b) _

theorem matchOrder_ok_of (b : Book) (o : Order) (hp : b.priceCompatible o = true)
    (hv : o.qty ≤ (b.sideOf o.otype.opp).volume) :
    b.matchOrder o.otype.opp o
      = .ok (b.sweepPrices o.otype.opp o ((b.sideOf o.otype.opp).prices)) := by
  cases ho : o.otype with
  | BID =>
    simp only [Book.priceCompatible, ho] at hp
    simp only [ho, OType.opp, Book.sideOf] at hv ⊢
    simp only [Book.matchOrder, Book.sideOf]
    rw [if_pos hp, if_pos hv]
  | ASK =>
    simp only [Book.priceCompatible, ho] at hp
    simp only [ho, OType.opp, Book.sideOf] at hv ⊢
    simp only [Book.matchOrder, Book.sideOf]
    rw [if_pos hp, if_pos hv]

/-- Claim C2: for an incoming order that passes the compatibility and
sufficiency checks, Book._match sweeps the opposing side's price list, which
is in best-first order (highest first for a BID side, lowest first for an
ASK side); within one price level the sweep takes the oldest resting order
first and, while the incoming remaining quantity exceeds the resting head's
quantity, executes the head in full (removed from the level), reduces the
incoming remaining quantity by the head's amount and continues within the
same level — the level-sweep refines the greedy FIFO fill specFill: the
level's queue afterwards, the untouched other levels and opposite side, the
last-traded price, the incoming order's remaining quantity and the matched
flag are all exactly as specFill prescribes. -/
theorem sweep_best_first_fifo (b : Book) (cs : OType) (o : Order) (p : ℤ) (L : List Order)
    (hst : (b.sideOf cs).stype = cs)
    (hget : (b.sideOf cs).get p = some L)
    (hwf : (b.sideOf cs).wellFormed)
    (hwfo : (b.sideOf (OType.opp cs)).wellFormed)
    (hk : (b.sideOf cs).keysNodup)
    (hnd : (b.sideOf cs).oids.Nodup)
    (hot : o.otype = OType.opp cs)
    (hoid : o.oid ∉ (b.sideOf (OType.opp cs)).oids)
    (hpr : ∀ r ∈ L, r.otype = cs ∧ r.price = p ∧ 0 < r.qty)
    (hq : 0 < o.qty) :
    (b.priceCompatible o = true → o.qty ≤ (b.sideOf cs).volume →
      b.matchOrder cs o = .ok (b.sweepPrices cs o ((b.sideOf cs).prices))) ∧
    List.Sorted (bestFirst cs) ((b.sideOf cs).prices) ∧
    (((b.sweepOrders o L).1.sideOf cs).get p
        = if (specFill o.qty L).1.isEmpty then none else some (specFill o.qty L).1) ∧
    (∀ p', p' ≠ p → ((b.sweepOrders o L).1.sideOf cs).get p' = (b.sideOf cs).get p') ∧
    ((b.sweepOrders o L).1.sideOf (OType.opp cs) = b.sideOf (OType.opp cs)) ∧
    ((b.sweepOrders o L).1.LTP = p) ∧
    ((b.sweepOrders o L).1.participants = b.participants) ∧
    ((b.sweepOrders o L).2.1
        = ⟨o.oid, o.owner, o.otype, o.price, (specFill o.qty L).2.1⟩) ∧
    ((b.sweepOrders o L).2.2 = (specFill o.qty L).2.2) := by
  refine ⟨?_, Side.prices_sorted _ _ hst, ?_⟩
  · intro hp hv
    have h := matchOrder_ok_of b o hp (by rw [hot, OType.opp_opp]; exact hv)
    rw [hot, OType.opp_opp] at h
    exact h
  · exact sweepOrders_fifo cs L b o p hget hwf hwfo hk hnd hot hoid hpr hq

/-- Witness for C2: three ASKs rest at price 5 with quantities 10, 4 and 6
in arrival order; a BID for 12 consumes the oldest fully, reduces the second
to 2, leaves the third untouched, leaves the bid side and other price levels
alone, and sets LTP to 5. -/
theorem sweep_best_first_fifo_check :
    ((fifoBook.sideOf OType.ASK).get 5 = some fifoLevel) ∧
    List.Sorted (bestFirst OType.ASK) ((fifoBook.sideOf OType.ASK).prices) ∧
    fifoBook.matchOrder OType.ASK fifoBid
      = .ok (fifoBook.sweepPrices OType.ASK fifoBid ((fifoBook.sideOf OType.ASK).prices)) ∧
    ((fifoBook.sweepOrders fifoBid fifoLevel).1.sideOf OType.ASK).get 5
      = some [⟨11, "S", .ASK, 5, 2⟩, ⟨15, "S", .ASK, 5, 6⟩] ∧
    ((fifoBook.sweepOrders fifoBid fifoLevel).1.sideOf OType.ASK).get 7
      = (fifoBook.sideOf OType.ASK).get 7 ∧
    (fifoBook.sweepOrders fifoBid fifoLevel).1.sideOf OType.BID
      = fifoBook.sideOf OType.BID ∧
    (fifoBook.sweepOrders fifoBid fifoLevel).1.LTP = 5 ∧
    (fifoBook.sweepOrders fifoBid fifoLevel).1.participants = fifoBook.participants ∧
    (fifoBook.sweepOrders fifoBid fifoLevel).2.2 = true := by
  have H := sweep_best_first_fifo fifoBook OType.ASK fifoBid 5 fifoLevel
    (by decide) (by decide) (by decide) (by decide) (by decide) (by decide)
    (by decide) (by decide) (by decide) (by decide)
  refine ⟨by decide, H.2.1, H.1 (by decide) (by decide), ?_, ?_, ?_, ?_, ?_, ?_⟩
  · rw [H.2.2.1]
    decide
  · exact H.2.2.2.1 7 (by decide)
  · exact H.2.2.2.2.1
  · exact H.2.2.2.2.2.1
  · exact H.2.2.2.2.2.2.1
  · rw [H.2.2.2.2.2.2.2.2]
    decide

end PyOBSim
